import Mathlib

/-!
Verification of the Phantasmagoria chat front end.

The development shallowly embeds the transcript ("chat history") data model and
the operations of `src/memory_handler.py`, the request/response codec of
`src/front_end_utils.py`, and the generation request/validation paths of
`src/provider.py`, `src/discord_provider.py` and `src/terminal_provider.py`.

Conventions:
* A tokenizer is abstract: a pair of functions `encode : String → List Nat`
  and `decode : List Nat → String` (`AutoTokenizer.encode` / `batch_decode`).
* Python exceptions are modelled with `Option`/`Except`: `none` or `.error`
  means the Python call raised.
* Machine integers do not occur; Python integers are `Int`/`Nat`.
-/

/-- Abstract tokenizer, modelling the `AutoTokenizer` object that is threaded
through `memory_handler.py`: `encode` maps a string to a token-id list (the
second dimension of the `return_tensors="pt"` tensor), `decode` maps a token-id
list back to a string (`batch_decode` on a single row, special tokens
skipped). -/
structure Tokenizer where
  encode : String → List Nat
  decode : List Nat → String

/-- Python `str.split('\n')` on the character list of a string:
`"" ↦ [""]`, `"a\nb" ↦ ["a", "b"]`, `"a\n" ↦ ["a", ""]`. -/
def py_split_newline_chars : List Char → List (List Char)
  | [] => [[]]
  | c :: cs =>
    if c = '\n' then [] :: py_split_newline_chars cs
    else
      match py_split_newline_chars cs with
      | [] => [[c]]
      | g :: gs => (c :: g) :: gs

/-- Python `str.split('\n')`, as used on the decoded truncated history in
`memory_cycle_by_token` (src/memory_handler.py line 172). -/
def py_split_newline (s : String) : List String :=
  (py_split_newline_chars s.data).map fun cs => String.mk cs

/-- `Memory_Handler.memory_cycle_by_token` (src/memory_handler.py lines
100-174).  The entry at index 0 is popped as `original_prompt`; the remaining
entries are joined with `''.join`, encoded, and the list is cleared
unconditionally.  If the combined size exceeds `a_max_length - a_extra_budget`
the token stream is narrowed starting at `abs(a_max_length -
prompt_tensor_size)` for the remaining distance, decoded and split on
newlines; otherwise nothing is put back besides the prompt.  `none` models a
raised Python exception: `IndexError` from `pop(0)` on an empty list, or the
error `torch.narrow` raises when the requested start exceeds the dimension
size (equivalently, when the narrow length would be negative). -/
def memory_cycle_by_token (a_tokenizer : Tokenizer) (a_max_length a_extra_budget : Int)
    (a_prompt_tensor : List Nat) (a_chat_history : List String) : Option (List String) :=
  match a_chat_history with
  | [] => none
  | original_prompt :: rest =>
    let chat_history_str := String.join rest
    let chat_history_tensor := a_tokenizer.encode chat_history_str
    let chat_history_tensor_size : Int := chat_history_tensor.length
    let prompt_tensor_size : Int := a_prompt_tensor.length
    let start_of_truncated_history : Nat := (a_max_length - prompt_tensor_size).natAbs
    if chat_history_tensor_size + prompt_tensor_size > a_max_length - a_extra_budget then
      if start_of_truncated_history ≤ chat_history_tensor.length then
        some (original_prompt ::
          py_split_newline (a_tokenizer.decode
            (chat_history_tensor.drop start_of_truncated_history)))
      else
        none
    else
      some [original_prompt]

/-- The `while` loop of `memory_cycle_by_sentence` (src/memory_handler.py lines
244-262): while the re-measured combined size exceeds
`a_max_length - a_extra_budget` and entries remain, pop the entry at index 0
and re-measure. -/
def sentence_cycle_loop (a_tokenizer : Tokenizer) (a_max_length a_extra_budget : Int)
    (prompt_tensor_size : Int) : List String → List String
  | [] => []
  | x :: xs =>
    if ((a_tokenizer.encode (String.join (x :: xs))).length : Int) + prompt_tensor_size >
        a_max_length - a_extra_budget then
      sentence_cycle_loop a_tokenizer a_max_length a_extra_budget prompt_tensor_size xs
    else
      x :: xs

/-- `Memory_Handler.memory_cycle_by_sentence` (src/memory_handler.py lines
176-265): pop the prompt, run the removal loop on the remaining entries,
re-insert the prompt at index 0.  `none` models the `IndexError` that `pop(0)`
raises on an empty list. -/
def memory_cycle_by_sentence (a_tokenizer : Tokenizer) (a_max_length a_extra_budget : Int)
    (a_prompt_tensor : List Nat) (a_chat_history : List String) : Option (List String) :=
  match a_chat_history with
  | [] => none
  | original_prompt :: rest =>
    some (original_prompt ::
      sentence_cycle_loop a_tokenizer a_max_length a_extra_budget
        (a_prompt_tensor.length : Int) rest)

/-- Python exceptions that the modelled code paths can raise. -/
inductive PyError where
  | attributeError
  | indexError
  | jsonDecodeError
  | typeError
  | unboundLocalError
  deriving DecidableEq, Repr

/-- The `netherworld_settings` and memory-relevant generation settings loaded
by `Memory_Handler.load_netherworld_settings` / `load_generation_settings`
(src/memory_handler.py lines 30-71): the cycler discriminator string, the
extra budget, the `max_length` budget and the configured prompt (preamble). -/
structure NetherworldConfig where
  prompt : String
  memory_cycler_type : String
  max_length : Int
  extra_budget : Int

/-- `Memory_Handler.dispatch_memory_cycler` (src/memory_handler.py lines
73-82).  The `by_sentence` branch forwards to `memory_cycle_by_sentence` with
`self.extra_budget`; the `by_token` branch evaluates `self.extra_budge`, an
attribute that is never assigned (only `extra_budget` is, line 44), so Python
raises `AttributeError` while evaluating the argument list, before
`memory_cycle_by_token` runs; any other discriminator does nothing.
`self.prompt_tensor` is the encoding of the configured prompt (line 70). -/
def dispatch_memory_cycler (cfg : NetherworldConfig) (a_tokenizer : Tokenizer)
    (chat_history : List String) : Except PyError (List String) :=
  if cfg.memory_cycler_type = "by_sentence" then
    match memory_cycle_by_sentence a_tokenizer cfg.max_length cfg.extra_budget
        (a_tokenizer.encode cfg.prompt) chat_history with
    | some h => .ok h
    | none => .error .indexError
  else if cfg.memory_cycler_type = "by_token" then
    .error .attributeError
  else
    .ok chat_history

/-- `Memory_Handler.append_message` (src/memory_handler.py lines 267-280):
append the message, then (when cycling is requested) dispatch the memory
cycler.  The returned pair is the chat history after the call together with
the exception the call raised, if any; the message is already appended when
`dispatch_memory_cycler` raises. -/
def append_message (cfg : NetherworldConfig) (a_tokenizer : Tokenizer)
    (chat_history : List String) (a_message : String) (a_cycle_through_memory : Bool) :
    List String × Option PyError :=
  let appended := chat_history ++ [a_message]
  if a_cycle_through_memory then
    match dispatch_memory_cycler cfg a_tokenizer appended with
    | .ok h => (h, none)
    | .error e => (appended, some e)
  else
    (appended, none)

/-- `Memory_Handler.clear_all_memories` (src/memory_handler.py lines 281-286):
clear the list and re-append the configured prompt. -/
def clear_all_memories (cfg : NetherworldConfig) : List String :=
  [cfg.prompt]

/-- `Memory_Handler.pop_memory` with its default index `-1`
(src/memory_handler.py lines 287-296): `list.pop()` removes and returns the
last element; on an empty list Python raises `IndexError` (`none`).  There is
no guard for the index-0 prompt. -/
def pop_memory (chat_history : List String) : Option (String × List String) :=
  match chat_history.getLast? with
  | none => none
  | some x => some (x, chat_history.dropLast)

/-- One transcript-mutating operation of the memory handler. -/
inductive MemOp where
  | append (msg : String) (cycle : Bool)
  | evict_by_token
  | evict_by_sentence
  | clear

/-- Effect of one operation on the chat history; `none` means the operation
raised and did not complete.  The eviction operations receive the configured
budget and prompt tensor exactly as `dispatch_memory_cycler` passes them. -/
def mem_step (cfg : NetherworldConfig) (tok : Tokenizer) (hist : List String) :
    MemOp → Option (List String)
  | .append msg cycle =>
    match append_message cfg tok hist msg cycle with
    | (h, none) => some h
    | (_, some _) => none
  | .evict_by_token =>
    memory_cycle_by_token tok cfg.max_length cfg.extra_budget (tok.encode cfg.prompt) hist
  | .evict_by_sentence =>
    memory_cycle_by_sentence tok cfg.max_length cfg.extra_budget (tok.encode cfg.prompt) hist
  | .clear => some (clear_all_memories cfg)

/-- A transcript built from the configured preamble by a completed sequence of
operations: the constructor seeds `chat_history` with the prompt
(src/memory_handler.py line 71) and each operation must return normally. -/
def run_mem_ops (cfg : NetherworldConfig) (tok : Tokenizer) (ops : List MemOp) :
    Option (List String) :=
  ops.foldlM (fun h op => mem_step cfg tok h op) [cfg.prompt]

/-- Concrete one-character-per-token tokenizer used for witnesses and
counterexamples: `encode` yields the code points, `decode` inverts it. -/
def char_tokenizer : Tokenizer where
  encode s := s.data.map Char.toNat
  decode l := String.mk (l.map Char.ofNat)

/-- The ByToken eviction step as the C3 specification sentences word it: when
the combined size exceeds the budget, discard exactly
`max 0 (L - (maxTokens - preambleTokenCount))` leading tokens of the
concatenated token stream, detokenize the remainder and split it on newline
boundaries; otherwise leave the non-preamble entries unchanged.  Written from
the spec for comparison with `memory_cycle_by_token`. -/
def memory_cycle_by_token_as_specified (a_tokenizer : Tokenizer)
    (a_max_length a_extra_budget : Int) (a_prompt_tensor : List Nat)
    (a_chat_history : List String) : Option (List String) :=
  match a_chat_history with
  | [] => none
  | preamble :: rest =>
    let toks := a_tokenizer.encode (String.join rest)
    let L : Int := toks.length
    let P : Int := a_prompt_tensor.length
    if L + P > a_max_length - a_extra_budget then
      let keepFrom : Nat := (max 0 (L - (a_max_length - P))).toNat
      some (preamble :: py_split_newline (a_tokenizer.decode (toks.drop keepFrom)))
    else
      some (preamble :: rest)

theorem sentence_cycle_loop_isSuffix (tok : Tokenizer) (maxL extra P : Int)
    (l : List String) :
    List.IsSuffix (sentence_cycle_loop tok maxL extra P l) l := by
  induction l with
  | nil => exact List.suffix_rfl
  | cons x xs ih =>
    unfold sentence_cycle_loop
    split
    · exact ih.trans (List.suffix_cons x xs)
    · exact List.suffix_rfl

theorem sentence_cycle_loop_post (tok : Tokenizer) (maxL extra P : Int)
    (l : List String) :
    ((tok.encode (String.join (sentence_cycle_loop tok maxL extra P l))).length : Int) + P ≤
        maxL - extra ∨
      sentence_cycle_loop tok maxL extra P l = [] := by
  induction l with
  | nil => right; rfl
  | cons x xs ih =>
    unfold sentence_cycle_loop
    split
    · exact ih
    · left
      omega

theorem sentence_cycle_loop_idem (tok : Tokenizer) (maxL extra P : Int)
    (l : List String) :
    sentence_cycle_loop tok maxL extra P (sentence_cycle_loop tok maxL extra P l) =
      sentence_cycle_loop tok maxL extra P l := by
  induction l with
  | nil => rfl
  | cons x xs ih =>
    by_cases hc : ((tok.encode (String.join (x :: xs))).length : Int) + P > maxL - extra
    · simp only [sentence_cycle_loop]
      rw [if_pos hc]
      exact ih
    · simp only [sentence_cycle_loop]
      rw [if_neg hc]
      simp only [sentence_cycle_loop]
      rw [if_neg hc]

/-- C5: when `memory_cycle_by_sentence` returns, the surviving non-preamble
entries form a suffix of the original ones (entries are removed oldest-first),
and either their joined token count plus the preamble token count fits within
`maxTokens - reserveTokens`, or no non-preamble entry remains; the preamble is
re-attached at position 0. -/
theorem by_sentence_eviction_post (tok : Tokenizer) (maxL extra : Int)
    (ptoks : List Nat) (preamble : String) (rest : List String) :
    ∃ s, memory_cycle_by_sentence tok maxL extra ptoks (preamble :: rest) =
        some (preamble :: s) ∧
      List.IsSuffix s rest ∧
      (((tok.encode (String.join s)).length : Int) + ptoks.length ≤ maxL - extra ∨
        s = []) :=
  ⟨sentence_cycle_loop tok maxL extra (ptoks.length : Int) rest, rfl,
    sentence_cycle_loop_isSuffix tok maxL extra (ptoks.length : Int) rest,
    sentence_cycle_loop_post tok maxL extra (ptoks.length : Int) rest⟩

/-- C4 (counterexample): the ByToken policy applied twice to the same
transcript differs from applying it once.  With the one-character-per-token
tokenizer, prompt `"p"`, `maxTokens = 5` and `reserveTokens = 0`, the
transcript `["p", "abcdefgh"]` becomes `["p", "efgh"]` after one application
but `["p"]` after two, because the second application clears a transcript that
already fits the budget. -/
theorem by_token_eviction_not_idempotent :
    (memory_cycle_by_token char_tokenizer 5 0 [112] ["p", "abcdefgh"]).bind
        (memory_cycle_by_token char_tokenizer 5 0 [112]) ≠
      memory_cycle_by_token char_tokenizer 5 0 [112] ["p", "abcdefgh"] := by
  decide

/-- C4 (amended): the BySentence eviction policy is idempotent for every
tokenizer and fixed budget: applying `memory_cycle_by_sentence` twice in a row
yields the same transcript as applying it once.  The ByToken policy is not
idempotent and is not a no-op on an already-fitting transcript (it clears all
non-preamble entries): see the counterexample. -/
theorem by_sentence_eviction_idempotent (tok : Tokenizer) (maxL extra : Int)
    (ptoks : List Nat) (hist : List String) :
    (memory_cycle_by_sentence tok maxL extra ptoks hist).bind
        (memory_cycle_by_sentence tok maxL extra ptoks) =
      memory_cycle_by_sentence tok maxL extra ptoks hist := by
  cases hist with
  | nil => rfl
  | cons p rest =>
    rw [show memory_cycle_by_sentence tok maxL extra ptoks (p :: rest) =
        some (p :: sentence_cycle_loop tok maxL extra (ptoks.length : Int) rest) from rfl]
    show memory_cycle_by_sentence tok maxL extra ptoks
        (p :: sentence_cycle_loop tok maxL extra (ptoks.length : Int) rest) = _
    rw [show memory_cycle_by_sentence tok maxL extra ptoks
          (p :: sentence_cycle_loop tok maxL extra (ptoks.length : Int) rest) =
        some (p :: sentence_cycle_loop tok maxL extra (ptoks.length : Int)
          (sentence_cycle_loop tok maxL extra (ptoks.length : Int) rest)) from rfl]
    rw [sentence_cycle_loop_idem]

/-- C3 (counterexample): on the transcript `["p", "ab"]` with the
one-character-per-token tokenizer, `maxTokens = 10` and `reserveTokens = 0`,
the non-preamble entries fit the budget, yet `memory_cycle_by_token` returns
`["p"]` (it clears the non-preamble entries) while the claimed behaviour
leaves them unchanged. -/
theorem by_token_eviction_differs_from_claim :
    memory_cycle_by_token char_tokenizer 10 0 [112] ["p", "ab"] ≠
      memory_cycle_by_token_as_specified char_tokenizer 10 0 [112] ["p", "ab"] := by
  decide

/-- C3 (amended): when the joined non-preamble entries tokenize to `L` tokens
with `L + P > maxTokens - reserveTokens` (where `P` is the preamble token
count) and the cut point `|maxTokens - P|` lies within the stream,
`memory_cycle_by_token` discards exactly `|maxTokens - P|` leading tokens,
detokenizes the remainder and splits it into entries on newline boundaries;
when the entries fit the budget it instead discards all non-preamble entries,
leaving only the preamble; in both cases the preamble is re-attached at
position 0. -/
theorem by_token_eviction_characterization (tok : Tokenizer) (maxL extra : Int)
    (ptoks : List Nat) (preamble : String) (rest : List String) :
    (((tok.encode (String.join rest)).length : Int) + (ptoks.length : Int) >
          maxL - extra →
      (maxL - (ptoks.length : Int)).natAbs ≤ (tok.encode (String.join rest)).length →
      memory_cycle_by_token tok maxL extra ptoks (preamble :: rest) =
        some (preamble :: py_split_newline (tok.decode
          ((tok.encode (String.join rest)).drop (maxL - (ptoks.length : Int)).natAbs)))) ∧
    (((tok.encode (String.join rest)).length : Int) + (ptoks.length : Int) ≤
          maxL - extra →
      memory_cycle_by_token tok maxL extra ptoks (preamble :: rest) =
        some [preamble]) := by
  constructor
  · intro h1 h2
    show (if ((tok.encode (String.join rest)).length : Int) + (ptoks.length : Int) >
          maxL - extra then _ else _) = _
    rw [if_pos h1, if_pos h2]
  · intro h1
    show (if ((tok.encode (String.join rest)).length : Int) + (ptoks.length : Int) >
          maxL - extra then _ else _) = _
    rw [if_neg (not_lt.mpr h1)]

/-- C3 (witness for the amended theorem): both branches evaluated on concrete
inputs with the one-character-per-token tokenizer and prompt `"p"`. -/
theorem by_token_eviction_characterization_witness :
    memory_cycle_by_token char_tokenizer 5 0 [112] ["p", "abcdefgh"] =
        some ["p", "efgh"] ∧
      memory_cycle_by_token char_tokenizer 10 0 [112] ["p", "ab"] = some ["p"] :=
  ⟨((by_token_eviction_characterization char_tokenizer 5 0 [112] "p" ["abcdefgh"]).1
      (by decide) (by decide)).trans (by decide),
    (by_token_eviction_characterization char_tokenizer 10 0 [112] "p" ["ab"]).2
      (by decide)⟩

/-- C9 (counterexample): `pop_memory` with its default index succeeds on a
transcript holding only the preamble and removes the preamble, instead of
failing when `len(entries) <= 1`. -/
theorem pop_memory_removes_lone_preamble :
    pop_memory ["preamble"] = some ("preamble", []) := rfl

/-- C9 (amended): `pop_memory` (with its default index) removes and returns
the final entry of every nonempty transcript — including a transcript of
length 1, whose lone preamble entry it removes — and fails (with `IndexError`,
not an `EmptyTranscript` error) only when the transcript is empty. -/
theorem pop_memory_pops_last (hist : List String) (h : hist ≠ []) :
    pop_memory hist = some (hist.getLast h, hist.dropLast) := by
  unfold pop_memory
  rw [List.getLast?_eq_getLast hist h]

/-- C9 (witness): `pop_memory` on a two-entry transcript removes and returns
the final entry. -/
theorem pop_memory_pops_last_witness :
    pop_memory ["p", "q"] = some ("q", ["p"]) :=
  (pop_memory_pops_last ["p", "q"] (by decide)).trans (by decide)

/-- C10: for every configuration whose `memory_cycler` is `"by_token"`,
`append_message` with cycling enabled appends the message and then raises
`AttributeError` (from the unassigned `self.extra_budge` read in
`dispatch_memory_cycler`), so `memory_cycle_by_token` never runs and the chat
history is left un-truncated with the message appended. -/
theorem by_token_dispatch_raises (cfg : NetherworldConfig) (tok : Tokenizer)
    (hist : List String) (msg : String) (h : cfg.memory_cycler_type = "by_token") :
    append_message cfg tok hist msg true = (hist ++ [msg], some .attributeError) ∧
    dispatch_memory_cycler cfg tok (hist ++ [msg]) = .error .attributeError := by
  have hs : cfg.memory_cycler_type ≠ "by_sentence" := by rw [h]; decide
  have hd : dispatch_memory_cycler cfg tok (hist ++ [msg]) = .error .attributeError := by
    unfold dispatch_memory_cycler
    rw [if_neg hs, if_pos h]
  refine ⟨?_, hd⟩
  show (match dispatch_memory_cycler cfg tok (hist ++ [msg]) with
    | .ok h => (h, none)
    | .error e => (hist ++ [msg], some e)) = _
  rw [hd]

/-- C10 (witness): a concrete `"by_token"` configuration on which
`append_message` appends and raises. -/
theorem by_token_dispatch_raises_witness :
    append_message ⟨"p", "by_token", 10, 0⟩ char_tokenizer ["p"] "hi" true =
      (["p", "hi"], some .attributeError) :=
  ((by_token_dispatch_raises ⟨"p", "by_token", 10, 0⟩ char_tokenizer
    ["p"] "hi" rfl).1).trans (by decide)

theorem dispatch_ok_head (cfg : NetherworldConfig) (tok : Tokenizer) (a : String)
    (t : List String) (res : List String)
    (hd : dispatch_memory_cycler cfg tok (a :: t) = .ok res) :
    res.head? = some a := by
  unfold dispatch_memory_cycler at hd
  split at hd
  · rw [show memory_cycle_by_sentence tok cfg.max_length cfg.extra_budget
        (tok.encode cfg.prompt) (a :: t) =
        some (a :: sentence_cycle_loop tok cfg.max_length cfg.extra_budget
          (((tok.encode cfg.prompt)).length : Int) t) from rfl] at hd
    simp only [Except.ok.injEq] at hd
    subst hd
    rfl
  · split at hd
    · simp at hd
    · simp only [Except.ok.injEq] at hd
      subst hd
      rfl

theorem append_message_ok_head (cfg : NetherworldConfig) (tok : Tokenizer)
    (a : String) (t : List String) (msg : String) (cycle : Bool) (res : List String)
    (hap : append_message cfg tok (a :: t) msg cycle = (res, none)) :
    res.head? = some a := by
  simp only [append_message] at hap
  cases cycle with
  | false =>
    simp only [Bool.false_eq_true, if_false, Prod.mk.injEq] at hap
    rw [← hap.1]
    rfl
  | true =>
    rw [if_pos rfl] at hap
    rcases hdm : dispatch_memory_cycler cfg tok ((a :: t) ++ [msg]) with e | r
    · rw [hdm] at hap
      simp at hap
    · rw [hdm] at hap
      simp only [Prod.mk.injEq] at hap
      rw [← hap.1]
      exact dispatch_ok_head cfg tok a (t ++ [msg]) r (by simpa using hdm)

theorem mem_step_head (cfg : NetherworldConfig) (tok : Tokenizer)
    {hist h' : List String} (op : MemOp) (hh : hist.head? = some cfg.prompt)
    (hs : mem_step cfg tok hist op = some h') : h'.head? = some cfg.prompt := by
  obtain ⟨t, rfl⟩ : ∃ t, hist = cfg.prompt :: t := by
    cases hist with
    | nil => simp at hh
    | cons a t => exact ⟨t, by rw [show a = cfg.prompt from by simpa using hh]⟩
  cases op with
  | append msg cycle =>
    simp only [mem_step] at hs
    rcases hap : append_message cfg tok (cfg.prompt :: t) msg cycle with ⟨res, oe⟩
    rw [hap] at hs
    cases oe with
    | some e => simp at hs
    | none =>
      simp only [Option.some.injEq] at hs
      subst hs
      exact append_message_ok_head cfg tok _ t msg cycle _ hap
  | evict_by_token =>
    simp only [mem_step, memory_cycle_by_token] at hs
    split at hs
    · split at hs
      · simp only [Option.some.injEq] at hs
        subst hs
        rfl
      · simp at hs
    · simp only [Option.some.injEq] at hs
      subst hs
      rfl
  | evict_by_sentence =>
    simp only [mem_step, memory_cycle_by_sentence, Option.some.injEq] at hs
    subst hs
    rfl
  | clear =>
    simp only [mem_step, clear_all_memories, Option.some.injEq] at hs
    subst hs
    rfl

theorem run_mem_ops_head_aux (cfg : NetherworldConfig) (tok : Tokenizer) (ops : List MemOp) :
    ∀ hist h', hist.head? = some cfg.prompt →
      List.foldlM (fun h op => mem_step cfg tok h op) hist ops = some h' →
      h'.head? = some cfg.prompt := by
  induction ops with
  | nil =>
    intro hist h' hh hrun
    simp only [List.foldlM_nil] at hrun
    cases hrun
    exact hh
  | cons op ops ih =>
    intro hist h' hh hrun
    rw [List.foldlM_cons] at hrun
    rcases hm : mem_step cfg tok hist op with _ | h1
    · rw [hm] at hrun
      simp at hrun
    · rw [hm] at hrun
      exact ih h1 h' (mem_step_head cfg tok op hh hm) (by simpa using hrun)

/-- C1: for every transcript constructed from a configured preamble, after any
completed sequence of append, eviction (by token or by sentence) and clear
operations, the entry at position 0 of the chat history is the preamble. -/
theorem preamble_invariant (cfg : NetherworldConfig) (tok : Tokenizer) (ops : List MemOp)
    (h : List String) (hrun : run_mem_ops cfg tok ops = some h) :
    h.head? = some cfg.prompt :=
  run_mem_ops_head_aux cfg tok ops [cfg.prompt] h rfl hrun

/-- C1 (witness): a concrete completed sequence of append, evict and clear
operations under the `"by_sentence"` cycler, after which the entry at
position 0 is still the preamble. -/
theorem preamble_invariant_witness :
    run_mem_ops ⟨"p", "by_sentence", 10, 0⟩ char_tokenizer
        [.append "a\n" true, .evict_by_sentence, .clear, .append "b" false] =
      some ["p", "b"] ∧ (["p", "b"] : List String).head? = some "p" :=
  ⟨by decide, preamble_invariant ⟨"p", "by_sentence", 10, 0⟩ char_tokenizer
    [.append "a\n" true, .evict_by_sentence, .clear, .append "b" false]
    ["p", "b"] (by decide)⟩

/-- Decimal digit character, `digit_chr d = '0' + d` for `d < 10`. -/
def digit_chr (d : Nat) : Char := Char.ofNat (48 + d)

/-- Whether a character is a decimal digit. -/
def is_digit_chr (c : Char) : Bool := decide (48 ≤ c.toNat ∧ c.toNat ≤ 57)

/-- Decimal numeral of a natural number, most significant digit first, as
Python prints it. -/
def num_chars (n : Nat) : List Char :=
  if n = 0 then ['0'] else ((Nat.digits 10 n).map digit_chr).reverse

/-- Continuation of a `json.dumps` integer list after its first numeral: the
remaining numerals, each preceded by the default `", "` separator. -/
def tail_chars : List Nat → List Char
  | [] => []
  | n :: t => ',' :: ' ' :: (num_chars n ++ tail_chars t)

/-- The comma-joined numerals of a `json.dumps` integer list. -/
def dump_items : List Nat → List Char
  | [] => []
  | n :: t => num_chars n ++ tail_chars t

/-- `json.dumps` of a Python list of non-negative integers with the default
separators: `"[]"`, `"[1]"`, `"[1, 2]"`, ... -/
def json_dumps_tokens (l : List Nat) : List Char :=
  '[' :: dump_items l ++ [']']

/-- JSON values appearing on this program's wire: non-negative integers and
(nested) arrays of them. -/
inductive JVal where
  | num (n : Nat)
  | arr (elems : List JVal)

/-- Parse a decimal numeral prefix. -/
def parse_nat_chars (cs : List Char) : Option (Nat × List Char) :=
  let ds := cs.takeWhile is_digit_chr
  if ds.isEmpty then none
  else some (ds.foldl (fun a c => 10 * a + (c.toNat - 48)) 0, cs.drop ds.length)

mutual

/-- Parse one JSON value (integer or array) from a character list; the fuel
dominates the nesting depth.  Models the grammar `json.loads` accepts on this
program's wire data, with `json.dumps` default formatting. -/
def parse_jval : Nat → List Char → Option (JVal × List Char)
  | 0, _ => none
  | _ + 1, [] => none
  | fuel + 1, c :: rest =>
      if c = '[' then
        match rest with
        | [] => none
        | c2 :: rest1 =>
          if c2 = ']' then some (.arr [], rest1)
          else
            match parse_jval fuel (c2 :: rest1) with
            | none => none
            | some (v, rest2) =>
              match parse_jitems fuel rest2 with
              | none => none
              | some (vs, rest3) => some (.arr (v :: vs), rest3)
      else
        match parse_nat_chars (c :: rest) with
        | none => none
        | some (n, rest2) => some (.num n, rest2)

/-- Parse the continuation of a JSON array after one element: either the
closing bracket or a comma (optionally followed by spaces, as `json.dumps`
emits `", "`) and more elements. -/
def parse_jitems : Nat → List Char → Option (List JVal × List Char)
  | 0, _ => none
  | _ + 1, [] => none
  | fuel + 1, c :: rest =>
      if c = ']' then some ([], rest)
      else if c = ',' then
        match parse_jval fuel (rest.dropWhile fun c2 => c2 = ' ') with
        | none => none
        | some (v, rest2) =>
          match parse_jitems fuel rest2 with
          | none => none
          | some (vs, rest3) => some (v :: vs, rest3)
      else none

end

/-- Model of `json.loads` on this program's wire grammar; `none` models
`json.JSONDecodeError` (raised for instance on the empty string). -/
def json_loads (s : String) : Option JVal :=
  match parse_jval (s.data.length + 1) s.data with
  | some (v, []) => some v
  | _ => none

/-- The base64 alphabet in value order. -/
def b64_alphabet : List Char :=
  "ABCDEFGHIJKLMNOPQRSTUVWXYZabcdefghijklmnopqrstuvwxyz0123456789+/".data

/-- Character for a six-bit value. -/
def b64_chr (v : Nat) : Char := b64_alphabet.getD v 'A'

/-- Six-bit value of an alphabet character, `none` outside the alphabet. -/
def b64_val (c : Char) : Option Nat := b64_alphabet.findIdx? (fun x => x = c)

/-- Characters `base64.b64decode` keeps with `validate=False`: the alphabet
and the padding character; everything else is discarded before decoding. -/
def b64_kept (c : Char) : Bool := (b64_val c).isSome || c = '='

/-- Model of `base64.b64encode` on a byte list: three bytes become four
alphabet characters; a final group of one or two bytes is padded with `'='`. -/
def b64_encode_bytes : List Nat → List Char
  | [] => []
  | [a] => [b64_chr (a / 4), b64_chr (a % 4 * 16), '=', '=']
  | [a, b] => [b64_chr (a / 4), b64_chr (a % 4 * 16 + b / 16), b64_chr (b % 16 * 4), '=']
  | a :: b :: c :: rest =>
    b64_chr (a / 4) :: b64_chr (a % 4 * 16 + b / 16) ::
      b64_chr (b % 16 * 4 + c / 64) :: b64_chr (c % 64) :: b64_encode_bytes rest

/-- Model of the core of `base64.b64decode`, applied after the non-alphabet
discard: groups of four characters decode to three bytes, with `'='` padding
allowed in the final group only; `none` models `binascii.Error`. -/
def b64_decode_chars : List Char → Option (List Nat)
  | [] => some []
  | c1 :: c2 :: c3 :: c4 :: rest =>
    if rest.isEmpty ∧ c3 = '=' ∧ c4 = '=' then
      match b64_val c1, b64_val c2 with
      | some v1, some v2 => some [v1 * 4 + v2 / 16]
      | _, _ => none
    else if rest.isEmpty ∧ c4 = '=' then
      match b64_val c1, b64_val c2, b64_val c3 with
      | some v1, some v2, some v3 => some [v1 * 4 + v2 / 16, v2 % 16 * 16 + v3 / 4]
      | _, _, _ => none
    else
      match b64_val c1, b64_val c2, b64_val c3, b64_val c4, b64_decode_chars rest with
      | some v1, some v2, some v3, some v4, some bs =>
        some ((v1 * 4 + v2 / 16) :: (v2 % 16 * 16 + v3 / 4) :: (v3 % 4 * 64 + v4) :: bs)
      | _, _, _, _, _ => none
  | _ => none

/-- Bytes of a string under `bytes(s, encoding='utf-8')`.  The strings this
program encodes (`json.dumps` output on integer lists, base64 text) are ASCII,
for which the UTF-8 bytes are exactly the code points. -/
def str_to_bytes (s : String) : List Nat := s.data.map Char.toNat

/-- Model of `bytes.decode("utf-8")` on the ASCII range; multi-byte UTF-8
sequences do not occur on the modelled wire, so other byte values map to
`none` (a `UnicodeDecodeError`). -/
def utf8_decode_bytes (bs : List Nat) : Option String :=
  if bs.all (fun b => b < 128) then some (String.mk (bs.map Char.ofNat)) else none

/-- `front_end_utils.get_encoded_str_from_token_list` (lines 50-73):
`json.dumps(base64.b64encode(bytes(json.dumps(a_message), 'utf-8')).decode("utf-8"))`.
The outer `json.dumps` of a base64 string (which contains no character that
JSON escapes) wraps it in double quotes. -/
def get_encoded_str_from_token_list (a_message : List Nat) : String :=
  String.mk ('"' ::
    b64_encode_bytes (str_to_bytes (String.mk (json_dumps_tokens a_message))) ++ ['"'])

/-- `front_end_utils.decode_encoded_tokenized_tensor` (lines 34-47):
`json.loads(base64.b64decode(a_encoded_tokens).decode("utf-8"))`, where
`b64decode` first discards characters outside its alphabet (`validate` is
left `False`); a `none` result models the exception the failing stage
raises. -/
def decode_encoded_tokenized_tensor (a_encoded_tokens : String) : Option JVal :=
  match b64_decode_chars (a_encoded_tokens.data.filter b64_kept) with
  | none => none
  | some bs =>
    match utf8_decode_bytes bs with
    | none => none
    | some t => json_loads t

/-- `Memory_Handler.get_encoded_chat_history` (src/memory_handler.py lines
84-98): join the chat history (preamble included), tokenize it, and encode the
token list for the wire. -/
def get_encoded_chat_history (a_tokenizer : Tokenizer) (chat_history : List String) :
    String :=
  get_encoded_str_from_token_list (a_tokenizer.encode (String.join chat_history))

theorem digit_chr_is_digit : ∀ d < 10, is_digit_chr (digit_chr d) = true := by decide

theorem digit_chr_toNat : ∀ d < 10, (digit_chr d).toNat = 48 + d := by decide

theorem num_chars_ne_nil (n : Nat) : num_chars n ≠ [] := by
  unfold num_chars
  split
  · simp
  · simp only [ne_eq, List.reverse_eq_nil_iff, List.map_eq_nil_iff]
    exact Nat.digits_ne_nil_iff_ne_zero.mpr (by assumption)

theorem mem_num_chars_digit {n : Nat} {c : Char} (hc : c ∈ num_chars n) :
    is_digit_chr c = true := by
  unfold num_chars at hc
  split at hc
  · simp only [List.mem_singleton] at hc
    subst hc
    decide
  · rw [List.mem_reverse, List.mem_map] at hc
    obtain ⟨d, hd, rfl⟩ := hc
    exact digit_chr_is_digit d (Nat.digits_lt_base (by norm_num) hd)

theorem foldr_digit_chr (ds : List Nat) (h : ∀ d ∈ ds, d < 10) :
    ds.foldr (fun d a => 10 * a + ((digit_chr d).toNat - 48)) 0 = Nat.ofDigits 10 ds := by
  induction ds with
  | nil => rfl
  | cons d t ih =>
    have hd : d < 10 := h d (by simp)
    rw [List.foldr_cons, ih (fun x hx => h x (by simp [hx])), Nat.ofDigits_cons,
      digit_chr_toNat d hd]
    omega

theorem num_chars_val (n : Nat) :
    (num_chars n).foldl (fun a c => 10 * a + (c.toNat - 48)) 0 = n := by
  unfold num_chars
  split
  · subst n
    decide
  · rw [List.foldl_reverse, List.foldr_map]
    rw [foldr_digit_chr (Nat.digits 10 n) (fun d hd => Nat.digits_lt_base (by norm_num) hd)]
    exact Nat.ofDigits_digits 10 n

theorem takeWhile_append_all {p : Char → Bool} {l l' : List Char}
    (h : ∀ c ∈ l, p c = true) (h2 : ∀ c, l'.head? = some c → p c = false) :
    (l ++ l').takeWhile p = l := by
  induction l with
  | nil =>
    cases l' with
    | nil => rfl
    | cons c t => simp [List.takeWhile_cons, h2 c rfl]
  | cons a t ih =>
    simp only [List.cons_append, List.takeWhile_cons, h a (by simp), if_true]
    rw [ih (fun c hc => h c (by simp [hc]))]

theorem parse_nat_chars_round (n : Nat) (rest : List Char)
    (hrest : ∀ c, rest.head? = some c → is_digit_chr c = false) :
    parse_nat_chars (num_chars n ++ rest) = some (n, rest) := by
  simp only [parse_nat_chars]
  rw [takeWhile_append_all (fun c hc => mem_num_chars_digit hc) hrest]
  rw [if_neg (by simpa [List.isEmpty_iff] using num_chars_ne_nil n)]
  rw [num_chars_val, List.drop_left]

theorem is_digit_chr_ne_brackets {c : Char} (h : is_digit_chr c = true) :
    c ≠ '[' ∧ c ≠ ']' ∧ c ≠ ',' ∧ c ≠ ' ' := by
  refine ⟨?_, ?_, ?_, ?_⟩ <;> rintro rfl <;> exact absurd h (by decide)

theorem tail_chars_head_not_digit (t : List Nat) (rest : List Char) :
    ∀ c, (tail_chars t ++ ']' :: rest).head? = some c → is_digit_chr c = false := by
  intro c hc
  cases t with
  | nil =>
    simp only [tail_chars, List.nil_append, List.head?_cons, Option.some.injEq] at hc
    subst hc
    decide
  | cons n t' =>
    simp only [tail_chars, List.cons_append, List.head?_cons, Option.some.injEq] at hc
    subst hc
    decide

theorem num_chars_cons (n : Nat) :
    ∃ d ds, num_chars n = d :: ds ∧ is_digit_chr d = true := by
  rcases hnc : num_chars n with _ | ⟨d, ds⟩
  · exact absurd hnc (num_chars_ne_nil n)
  · exact ⟨d, ds, rfl,
      mem_num_chars_digit (n := n) (by rw [hnc]; exact List.mem_cons_self d ds)⟩


theorem parse_jval_bracket (fuel : Nat) (rest : List Char) :
    parse_jval (fuel + 1) ('[' :: rest) =
      match rest with
      | [] => none
      | c2 :: rest1 =>
        if c2 = ']' then some (.arr [], rest1)
        else
          match parse_jval fuel (c2 :: rest1) with
          | none => none
          | some (v, rest2) =>
            match parse_jitems fuel rest2 with
            | none => none
            | some (vs, rest3) => some (.arr (v :: vs), rest3) := rfl

theorem parse_jval_not_bracket (fuel : Nat) (c : Char) (rest : List Char) (hc : c ≠ '[') :
    parse_jval (fuel + 1) (c :: rest) =
      match parse_nat_chars (c :: rest) with
      | none => none
      | some (n, rest2) => some (.num n, rest2) := by
  simp only [parse_jval]
  rw [if_neg hc]

theorem parse_jitems_comma (fuel : Nat) (rest : List Char) :
    parse_jitems (fuel + 1) (',' :: rest) =
      match parse_jval fuel (rest.dropWhile fun c2 => c2 = ' ') with
      | none => none
      | some (v, rest2) =>
        match parse_jitems fuel rest2 with
        | none => none
        | some (vs, rest3) => some (v :: vs, rest3) := rfl

theorem parse_jval_num (f : Nat) (n : Nat) (rest : List Char)
    (hrest : ∀ c, rest.head? = some c → is_digit_chr c = false) :
    parse_jval (f + 1) (num_chars n ++ rest) = some (.num n, rest) := by
  have hpn : parse_nat_chars (num_chars n ++ rest) = some (n, rest) :=
    parse_nat_chars_round n rest hrest
  obtain ⟨d, ds, hnc, hd⟩ := num_chars_cons n
  rw [hnc, List.cons_append] at hpn ⊢
  rw [parse_jval_not_bracket f d (ds ++ rest) (is_digit_chr_ne_brackets hd).1, hpn]

theorem dropWhile_space_cons (d : Char) (ds : List Char) (hd : d ≠ ' ') :
    List.dropWhile (fun c2 => c2 = ' ') (' ' :: d :: ds) = d :: ds := by
  simp [List.dropWhile_cons, hd]

theorem parse_jitems_tail (l : List Nat) :
    ∀ fuel rest, l.length + 1 ≤ fuel →
      parse_jitems fuel (tail_chars l ++ ']' :: rest) = some (l.map JVal.num, rest) := by
  induction l with
  | nil =>
    intro fuel rest hf
    obtain ⟨f, rfl⟩ : ∃ f, fuel = f + 1 := ⟨fuel - 1, by omega⟩
    rfl
  | cons n t ih =>
    intro fuel rest hf
    simp only [List.length_cons] at hf
    obtain ⟨f, rfl⟩ : ∃ f, fuel = f + 1 := ⟨fuel - 1, by omega⟩
    obtain ⟨f', rfl⟩ : ∃ f', f = f' + 1 := ⟨f - 1, by omega⟩
    have hexp : tail_chars (n :: t) ++ ']' :: rest =
        ',' :: (' ' :: (num_chars n ++ (tail_chars t ++ ']' :: rest))) := by
      simp [tail_chars, List.append_assoc]
    rw [hexp, parse_jitems_comma]
    obtain ⟨d, ds, hnc, hd⟩ := num_chars_cons n
    have hdw : List.dropWhile (fun c2 => c2 = ' ')
        (' ' :: (num_chars n ++ (tail_chars t ++ ']' :: rest))) =
        num_chars n ++ (tail_chars t ++ ']' :: rest) := by
      rw [hnc, List.cons_append]
      exact dropWhile_space_cons d (ds ++ (tail_chars t ++ ']' :: rest))
        (is_digit_chr_ne_brackets hd).2.2.2
    rw [hdw, parse_jval_num f' n (tail_chars t ++ ']' :: rest)
      (tail_chars_head_not_digit t rest)]
    show (match parse_jitems (f' + 1) (tail_chars t ++ ']' :: rest) with
      | none => none
      | some (vs, rest3) => some (JVal.num n :: vs, rest3)) = _
    rw [ih (f' + 1) rest (by omega)]
    rfl

theorem tail_chars_length (t : List Nat) : t.length ≤ (tail_chars t).length := by
  induction t with
  | nil => simp [tail_chars]
  | cons n t ih =>
    simp only [tail_chars, List.length_cons, List.length_append]
    omega

theorem parse_jval_dumps (l : List Nat) (fuel : Nat) (hf : l.length + 2 ≤ fuel)
    (rest : List Char) :
    parse_jval fuel (json_dumps_tokens l ++ rest) = some (.arr (l.map JVal.num), rest) := by
  cases l with
  | nil =>
    obtain ⟨f, rfl⟩ : ∃ f, fuel = f + 1 := ⟨fuel - 1, by omega⟩
    rfl
  | cons n t =>
    simp only [List.length_cons] at hf
    obtain ⟨f, rfl⟩ : ∃ f, fuel = f + 1 := ⟨fuel - 1, by omega⟩
    obtain ⟨f', rfl⟩ : ∃ f', f = f' + 1 := ⟨f - 1, by omega⟩
    have hexp : json_dumps_tokens (n :: t) ++ rest =
        '[' :: (num_chars n ++ (tail_chars t ++ ']' :: rest)) := by
      simp [json_dumps_tokens, dump_items, List.append_assoc]
    rw [hexp, parse_jval_bracket]
    obtain ⟨d, ds, hnc, hd⟩ := num_chars_cons n
    rw [hnc, List.cons_append]
    show (if d = ']' then some (JVal.arr [], ds ++ (tail_chars t ++ ']' :: rest))
      else
        match parse_jval (f' + 1) (d :: (ds ++ (tail_chars t ++ ']' :: rest))) with
        | none => none
        | some (v, rest2) =>
          match parse_jitems (f' + 1) rest2 with
          | none => none
          | some (vs, rest3) => some (JVal.arr (v :: vs), rest3)) = _
    rw [if_neg (is_digit_chr_ne_brackets hd).2.1]
    rw [← List.cons_append, ← hnc]
    rw [parse_jval_num f' n (tail_chars t ++ ']' :: rest)
      (tail_chars_head_not_digit t rest)]
    show (match parse_jitems (f' + 1) (tail_chars t ++ ']' :: rest) with
      | none => none
      | some (vs, rest3) => some (JVal.arr (JVal.num n :: vs), rest3)) = _
    rw [parse_jitems_tail t (f' + 1) rest (by omega)]
    rfl

theorem json_loads_dumps (l : List Nat) :
    json_loads (String.mk (json_dumps_tokens l)) = some (.arr (l.map JVal.num)) := by
  have hlen : l.length + 2 ≤ (json_dumps_tokens l).length + 1 := by
    cases l with
    | nil => simp [json_dumps_tokens, dump_items]
    | cons n t =>
      have h1 := tail_chars_length t
      have h3 : 1 ≤ (num_chars n).length := by
        cases hnc : num_chars n with
        | nil => exact absurd hnc (num_chars_ne_nil n)
        | cons d ds => simp
      simp only [json_dumps_tokens, dump_items, List.length_cons, List.length_append,
        List.length_singleton]
      omega
  unfold json_loads
  rw [show (String.mk (json_dumps_tokens l)).data = json_dumps_tokens l from rfl]
  have h := parse_jval_dumps l ((json_dumps_tokens l).length + 1) hlen []
  rw [List.append_nil] at h
  rw [h]

theorem b64_val_chr : ∀ v < 64, b64_val (b64_chr v) = some v := by decide

theorem b64_chr_ne_eq : ∀ v < 64, b64_chr v ≠ '=' := by decide

theorem b64_kept_chr (v : Nat) : b64_kept (b64_chr v) = true := by
  by_cases hv : v < 64
  · exact (show ∀ v, v < 64 → b64_kept (b64_chr v) = true from by decide) v hv
  · rw [show b64_chr v = 'A' from by
      unfold b64_chr
      exact List.getD_eq_default _ _ (by rw [show b64_alphabet.length = 64 from rfl]; omega)]
    decide

theorem b64_kept_encode (bytes : List Nat) :
    ∀ c ∈ b64_encode_bytes bytes, b64_kept c = true := by
  induction bytes using b64_encode_bytes.induct with
  | case1 =>
    intro c hc
    simp [b64_encode_bytes] at hc
  | case2 a =>
    intro c hc
    simp only [b64_encode_bytes, List.mem_cons, List.not_mem_nil, or_false] at hc
    rcases hc with rfl | rfl | rfl | rfl
    · exact b64_kept_chr _
    · exact b64_kept_chr _
    · decide
    · decide
  | case3 a b =>
    intro c hc
    simp only [b64_encode_bytes, List.mem_cons, List.not_mem_nil, or_false] at hc
    rcases hc with rfl | rfl | rfl | rfl
    · exact b64_kept_chr _
    · exact b64_kept_chr _
    · exact b64_kept_chr _
    · decide
  | case4 a b c2 rest ih =>
    intro c hc
    simp only [b64_encode_bytes, List.mem_cons] at hc
    rcases hc with rfl | rfl | rfl | rfl | hmem
    · exact b64_kept_chr _
    · exact b64_kept_chr _
    · exact b64_kept_chr _
    · exact b64_kept_chr _
    · exact ih c hmem

theorem filter_kept_encode (bytes : List Nat) :
    List.filter b64_kept ('"' :: b64_encode_bytes bytes ++ ['"']) =
      b64_encode_bytes bytes := by
  have h1 : b64_kept '\x22' = false := by decide
  simp [h1, List.filter_append, List.filter_eq_self.mpr (b64_kept_encode bytes)]

theorem b64_decode_pad2 (c1 c2 : Char) :
    b64_decode_chars [c1, c2, '=', '='] =
      match b64_val c1, b64_val c2 with
      | some v1, some v2 => some [v1 * 4 + v2 / 16]
      | _, _ => none := by
  simp only [b64_decode_chars]
  rw [if_pos (by simp)]

theorem b64_decode_pad1 (c1 c2 c3 : Char) (h3 : c3 ≠ '=') :
    b64_decode_chars [c1, c2, c3, '='] =
      match b64_val c1, b64_val c2, b64_val c3 with
      | some v1, some v2, some v3 => some [v1 * 4 + v2 / 16, v2 % 16 * 16 + v3 / 4]
      | _, _, _ => none := by
  simp only [b64_decode_chars]
  rw [if_neg (by simp [h3]), if_pos (by simp)]

theorem b64_decode_quad (c1 c2 c3 c4 : Char) (rest : List Char) (h4 : c4 ≠ '=') :
    b64_decode_chars (c1 :: c2 :: c3 :: c4 :: rest) =
      match b64_val c1, b64_val c2, b64_val c3, b64_val c4, b64_decode_chars rest with
      | some v1, some v2, some v3, some v4, some bs =>
        some ((v1 * 4 + v2 / 16) :: (v2 % 16 * 16 + v3 / 4) :: (v3 % 4 * 64 + v4) :: bs)
      | _, _, _, _, _ => none := by
  simp only [b64_decode_chars]
  rw [if_neg (by simp [h4]), if_neg (by simp [h4])]

theorem b64_decode_encode (bytes : List Nat) (hb : ∀ b ∈ bytes, b < 256) :
    b64_decode_chars (b64_encode_bytes bytes) = some bytes := by
  induction bytes using b64_encode_bytes.induct with
  | case1 => rfl
  | case2 a =>
    have ha : a < 256 := hb a (by simp)
    show b64_decode_chars [b64_chr (a / 4), b64_chr (a % 4 * 16), '=', '='] = _
    rw [b64_decode_pad2, b64_val_chr (a / 4) (by omega), b64_val_chr (a % 4 * 16) (by omega)]
    show some [a / 4 * 4 + a % 4 * 16 / 16] = some [a]
    rw [show a / 4 * 4 + a % 4 * 16 / 16 = a from by omega]
  | case3 a b =>
    have ha : a < 256 := hb a (by simp)
    have hbb : b < 256 := hb b (by simp)
    show b64_decode_chars
      [b64_chr (a / 4), b64_chr (a % 4 * 16 + b / 16), b64_chr (b % 16 * 4), '='] = _
    rw [b64_decode_pad1 _ _ _ (b64_chr_ne_eq (b % 16 * 4) (by omega)),
      b64_val_chr (a / 4) (by omega), b64_val_chr (a % 4 * 16 + b / 16) (by omega),
      b64_val_chr (b % 16 * 4) (by omega)]
    show some [a / 4 * 4 + (a % 4 * 16 + b / 16) / 16,
      (a % 4 * 16 + b / 16) % 16 * 16 + b % 16 * 4 / 4] = some [a, b]
    rw [show a / 4 * 4 + (a % 4 * 16 + b / 16) / 16 = a from by omega,
      show (a % 4 * 16 + b / 16) % 16 * 16 + b % 16 * 4 / 4 = b from by omega]
  | case4 a b c rest ih =>
    have ha : a < 256 := hb a (by simp)
    have hbb : b < 256 := hb b (by simp)
    have hc : c < 256 := hb c (by simp)
    show b64_decode_chars (b64_chr (a / 4) :: b64_chr (a % 4 * 16 + b / 16) ::
      b64_chr (b % 16 * 4 + c / 64) :: b64_chr (c % 64) :: b64_encode_bytes rest) = _
    rw [b64_decode_quad _ _ _ _ _ (b64_chr_ne_eq (c % 64) (by omega)),
      b64_val_chr (a / 4) (by omega), b64_val_chr (a % 4 * 16 + b / 16) (by omega),
      b64_val_chr (b % 16 * 4 + c / 64) (by omega), b64_val_chr (c % 64) (by omega),
      ih (fun x hx => hb x (by simp [hx]))]
    show some ((a / 4 * 4 + (a % 4 * 16 + b / 16) / 16) ::
      ((a % 4 * 16 + b / 16) % 16 * 16 + (b % 16 * 4 + c / 64) / 4) ::
      ((b % 16 * 4 + c / 64) % 4 * 64 + c % 64) :: rest) = some (a :: b :: c :: rest)
    rw [show a / 4 * 4 + (a % 4 * 16 + b / 16) / 16 = a from by omega,
      show (a % 4 * 16 + b / 16) % 16 * 16 + (b % 16 * 4 + c / 64) / 4 = b from by omega,
      show (b % 16 * 4 + c / 64) % 4 * 64 + c % 64 = c from by omega]

theorem mem_tail_chars_ascii (t : List Nat) : ∀ c ∈ tail_chars t, c.toNat < 128 := by
  induction t with
  | nil =>
    intro c hc
    simp [tail_chars] at hc
  | cons n t ih =>
    intro c hc
    simp only [tail_chars, List.mem_cons, List.mem_append] at hc
    rcases hc with rfl | rfl | hc | hc
    · decide
    · decide
    · have h2 := mem_num_chars_digit hc
      simp only [is_digit_chr, decide_eq_true_eq] at h2
      omega
    · exact ih c hc

theorem mem_json_dumps_ascii (l : List Nat) : ∀ c ∈ json_dumps_tokens l, c.toNat < 128 := by
  intro c hc
  simp only [json_dumps_tokens, List.mem_cons, List.mem_append, List.mem_singleton] at hc
  rcases hc with (rfl | hc) | (rfl | h0)
  · decide
  · cases l with
    | nil => simp [dump_items] at hc
    | cons n t =>
      simp only [dump_items, List.mem_append] at hc
      rcases hc with hc | hc
      · have h2 := mem_num_chars_digit hc
        simp only [is_digit_chr, decide_eq_true_eq] at h2
        omega
      · exact mem_tail_chars_ascii t c hc
  · decide
  · simp at h0

theorem utf8_decode_to_bytes (cs : List Char) (h : ∀ c ∈ cs, c.toNat < 128) :
    utf8_decode_bytes (str_to_bytes (String.mk cs)) = some (String.mk cs) := by
  unfold utf8_decode_bytes str_to_bytes
  rw [show (String.mk cs).data = cs from rfl]
  have hall : ((cs.map Char.toNat).all fun b => b < 128) = true := by
    rw [List.all_eq_true]
    intro b hbm
    obtain ⟨c, hcm, rfl⟩ := List.mem_map.mp hbm
    rw [decide_eq_true_eq]
    exact h c hcm
  rw [if_pos hall, List.map_map,
    show Char.ofNat ∘ Char.toNat = id from funext fun c => Char.ofNat_toNat c,
    List.map_id]

/-- C6: for every transcript, base64-decoding the wire string produced by
`get_encoded_chat_history` and then JSON-parsing the decoded bytes (the
composite `decode_encoded_tokenized_tensor`) recovers exactly the token
sequence `tokenizer.encode(joinedEntries)`: the request-path codec round
trips on every token list. -/
theorem request_codec_round_trip (tok : Tokenizer) (hist : List String) :
    decode_encoded_tokenized_tensor (get_encoded_chat_history tok hist) =
      some (.arr ((tok.encode (String.join hist)).map JVal.num)) := by
  have main : ∀ toks : List Nat,
      decode_encoded_tokenized_tensor (get_encoded_str_from_token_list toks) =
        some (.arr (toks.map JVal.num)) := by
    intro toks
    have hascii := mem_json_dumps_ascii toks
    have hbytes : ∀ b ∈ str_to_bytes (String.mk (json_dumps_tokens toks)), b < 256 := by
      intro b hbm
      obtain ⟨c, hcm, rfl⟩ := List.mem_map.mp hbm
      have := hascii c hcm
      omega
    unfold decode_encoded_tokenized_tensor get_encoded_str_from_token_list
    rw [show (String.mk ('"' ::
        b64_encode_bytes (str_to_bytes (String.mk (json_dumps_tokens toks))) ++ ['"'])).data =
      '"' :: b64_encode_bytes (str_to_bytes (String.mk (json_dumps_tokens toks))) ++ ['"']
      from rfl]
    rw [filter_kept_encode, b64_decode_encode _ hbytes]
    show (match utf8_decode_bytes (str_to_bytes (String.mk (json_dumps_tokens toks))) with
      | none => none
      | some t => json_loads t) = _
    rw [utf8_decode_to_bytes _ hascii]
    exact json_loads_dumps toks
  exact main (tok.encode (String.join hist))

/-- Settings shared by the providers (`Provider.__init__`,
src/provider.py lines 15-38): the user and bot names and the memory
configuration. -/
structure ProviderConfig where
  nether : NetherworldConfig
  user_name : String
  bot_name : String

/-- Outcome of the transport call `requests.post(url + "/generate", ...)`
together with `.json()` parsing, as distinguished by the `except` clauses of
`Provider.request_generation` (src/provider.py lines 99-125): a response
whose status is 2xx (carrying the parsed JSON body: `none` is JSON `null`,
`some s` a JSON string), a response with a non-2xx status (its code raises
`HTTPError` in `raise_for_status`), a `Timeout`, another `RequestException`,
or any other exception. -/
inductive GenOutcome where
  | success (body : Option String)
  | http_error (status : Int)
  | timeout
  | request_exception
  | other_exception

/-- What `request_generation` hands to its caller when it returns: a parsed
JSON body, or an integer error code. -/
inductive GenResult where
  | json (body : Option String)
  | code (n : Int)
  deriving DecidableEq

/-- `Provider.request_generation` (src/provider.py lines 84-125).  A 2xx
response returns the parsed JSON body; `Timeout` returns `0`,
`RequestException` returns `-1`, any other exception returns `-2`.  On a
non-2xx status `raise_for_status` raises `requests.exceptions.HTTPError` and
the handler immediately evaluates `http_exception.code` — an attribute that
`requests`' `HTTPError` (unlike `urllib.error.HTTPError`) does not have, the
status lives in `http_exception.response.status_code` — so the handler itself
raises `AttributeError`, which propagates out of the function. -/
def request_generation : GenOutcome → Except PyError GenResult
  | .success body => .ok (.json body)
  | .http_error _ => .error .attributeError
  | .timeout => .ok (.code 0)
  | .request_exception => .ok (.code (-1))
  | .other_exception => .ok (.code (-2))

/-- Which Discord object carries the reply in `validate_generation`: a
`discord.Message` (the `on_message` reply path) or a `discord.Interaction`
(the slash-command path). -/
inductive DiscordTarget where
  | message
  | interaction

/-- Python `str.strip()` whitespace (the ASCII whitespace characters). -/
def py_is_space (c : Char) : Bool :=
  c = ' ' || c = '\t' || c = '\n' || c = '\r' || c = Char.ofNat 11 || c = Char.ofNat 12

/-- `Discord_Provider.validate_generation` (src/discord_provider.py lines
686-743), transcript effects and verdict.  An integer generation is an error
code: an error text is sent and the verdict is `false` with the memories
untouched.  A `None` or whitespace-only generation is invalid; only on the
`discord.Message` path (`a_interaction is None`) are the memories cleared to
the bare prompt.  Anything else is valid. -/
def validate_generation (nether : NetherworldConfig) (hist : List String)
    (a_generation : GenResult) (target : DiscordTarget) : Bool × List String :=
  match a_generation with
  | .code _ => (false, hist)
  | .json none =>
    match target with
    | .message => (false, clear_all_memories nether)
    | .interaction => (false, hist)
  | .json (some s) =>
    if s.data.all py_is_space then
      match target with
      | .message => (false, clear_all_memories nether)
      | .interaction => (false, hist)
    else (true, hist)

/-- Token-list view of a decoded JSON value: succeeds on an array of
integers. -/
def as_token_list : JVal → Option (List Nat)
  | .num _ => none
  | .arr l => l.mapM fun v => match v with | .num n => some n | .arr _ => none

/-- `Provider.detokenize_decoded_message` (src/provider.py lines 57-65):
`tokenizer.decode(a_list_of_decoded_tokens[0], skip_special_tokens=True)`.
`none` models the exception Python raises when the subscript or the decode is
handed a value of the wrong shape. -/
def detokenize_decoded_message (a_tokenizer : Tokenizer) : JVal → Option String
  | .arr (first :: _) => (as_token_list first).map a_tokenizer.decode
  | _ => none

/-- `Discord_Provider.send_discord_message` (src/discord_provider.py lines
560-599), transcript effects.  The sanitized user message and the bare
`bot_name + ":"` placeholder are appended (each through `append_message` with
cycling), the generation is requested and the result validated on the
`discord.Message` path; only a valid generation has the placeholder popped
and the full reply appended.  The pair returned is the chat history after the
call together with the exception that escaped it, if any. -/
def send_discord_message (cfg : ProviderConfig) (tok : Tokenizer) (hist : List String)
    (author_name content : String) (outcome : GenOutcome) :
    List String × Option PyError :=
  let user_message := author_name ++ ": " ++ content ++ "\n"
  match append_message cfg.nether tok hist user_message true with
  | (h1, some e) => (h1, some e)
  | (h1, none) =>
    match append_message cfg.nether tok h1 (cfg.bot_name ++ ":") true with
    | (h2, some e) => (h2, some e)
    | (h2, none) =>
      match request_generation outcome with
      | .error e => (h2, some e)
      | .ok gen =>
        match validate_generation cfg.nether h2 gen .message with
        | (false, h3) => (h3, none)
        | (true, h3) =>
          match gen with
          | .json (some s) =>
            match decode_encoded_tokenized_tensor s with
            | none => (h3, some .jsonDecodeError)
            | some v =>
              match detokenize_decoded_message tok v with
              | none => (h3, some .typeError)
              | some msg =>
                match pop_memory h3 with
                | none => (h3, some .indexError)
                | some (_, h4) =>
                  match append_message cfg.nether tok h4
                      (cfg.bot_name ++ ": " ++ msg) true with
                  | (h5, oe) => (h5, oe)
          | _ => (h3, some .typeError)

/-- How one loop iteration of the terminal provider ends. -/
inductive TermEvent where
  | exited
  | errored (e : PyError)
  | responded
  deriving DecidableEq

/-- One loop iteration of `Terminal_Provider.chat` for a non-`!quit` input
(src/terminal_provider.py lines 42-69), transcript effects.  The formatted
user message is appended (with cycling) and the encoded chat history is
stored, but line 52 — `serial_settings = json.dumps(serial_settings)` — reads
the local name `serial_settings` before it is assigned (the instance
attribute is `self.serial_settings`), so Python raises `UnboundLocalError`
there, before any generation request is sent: the request, exit-on-int,
clear-on-`None`, decode and append code further down the loop body is
unreachable. -/
def terminal_chat_step (cfg : ProviderConfig) (tok : Tokenizer) (hist : List String)
    (user_input : String) : List String × TermEvent :=
  let formatted_user_input := cfg.user_name ++ ": " ++ user_input ++ "\n"
  match append_message cfg.nether tok hist formatted_user_input true with
  | (h1, some e) => (h1, .errored e)
  | (h1, none) => (h1, .errored .unboundLocalError)

/-- C7: `request_generation` returns the parsed JSON body on a 2xx response,
`0` on a timeout, `-1` on a request exception and `-2` on any other
exception; but on a non-2xx status it does not return the literal code: the
`except HTTPError` handler reads the nonexistent `code` attribute and raises
`AttributeError` out of the function. -/
theorem request_generation_error_codes :
    (∀ body, request_generation (.success body) = .ok (.json body)) ∧
    request_generation .timeout = .ok (.code 0) ∧
    request_generation .request_exception = .ok (.code (-1)) ∧
    request_generation .other_exception = .ok (.code (-2)) ∧
    (∀ status, request_generation (.http_error status) = .error .attributeError) :=
  ⟨fun _ => rfl, rfl, rfl, rfl, fun _ => rfl⟩

/-- C2 (counterexample): with the `"none"` cycler, prompt `"p"`, author `"U"`
and content `"hi"`, a generation failing with HTTP 500 leaves the transcript
`["p", "U: hi\n", "B:"]`: the placeholder `"B:"` is not removed, so the
transcript differs from the claimed rolled-back `["p", "U: hi\n"]`. -/
theorem failed_generation_no_rollback :
    send_discord_message ⟨⟨"p", "none", 10, 0⟩, "U", "B"⟩ char_tokenizer ["p"]
        "U" "hi" (.http_error 500) =
      (["p", "U: hi\n", "B:"], some .attributeError) ∧
    (["p", "U: hi\n", "B:"] : List String) ≠ ["p", "U: hi\n"] := by
  constructor
  · decide
  · decide

/-- C2 (amended): when the two pre-request appends complete and the
generation request fails with an HTTP error (non-2xx status),
`send_discord_message` performs no rollback: the call raises the
`AttributeError` escaping `request_generation`, and the transcript stays
exactly the pre-request transcript `h2`, the bare placeholder still in final
position. -/
theorem http_error_keeps_placeholder (cfg : ProviderConfig) (tok : Tokenizer)
    (hist : List String) (author content : String) (status : Int)
    (h1 h2 : List String)
    (ha1 : append_message cfg.nether tok hist (author ++ ": " ++ content ++ "\n") true =
      (h1, none))
    (ha2 : append_message cfg.nether tok h1 (cfg.bot_name ++ ":") true = (h2, none)) :
    send_discord_message cfg tok hist author content (.http_error status) =
      (h2, some .attributeError) := by
  simp only [send_discord_message, ha1, ha2, request_generation]

/-- C2 (witness for the amended theorem): a concrete HTTP 404 failure after
which the transcript still ends with the placeholder. -/
theorem http_error_keeps_placeholder_witness :
    send_discord_message ⟨⟨"p", "none", 10, 0⟩, "U", "B"⟩ char_tokenizer ["p"]
        "U" "yo" (.http_error 404) =
      (["p", "U: yo\n", "B:"], some .attributeError) :=
  http_error_keeps_placeholder ⟨⟨"p", "none", 10, 0⟩, "U", "B"⟩ char_tokenizer ["p"]
    "U" "yo" 404 ["p", "U: yo\n"] ["p", "U: yo\n", "B:"] (by decide) (by decide)

/-- C8 (counterexample): on the Discord interaction (slash-command) path an
empty generation does not clear the transcript: `validate_generation` with an
`a_interaction` only sends an error message, so a transcript holding the
preamble and a user turn is left as it was, not reduced to only the
preamble. -/
theorem empty_generation_interaction_no_clear :
    validate_generation ⟨"p", "none", 10, 0⟩ ["p", "U: hi\n"]
        (.json (some "")) .interaction = (false, ["p", "U: hi\n"]) ∧
    (["p", "U: hi\n"] : List String) ≠ ["p"] := by
  constructor
  · decide
  · decide

/-- C8 (amended): on the Discord message path, when the pre-request appends
complete and the generation returns whitespace-only (or empty) text,
`validate_generation` clears the memories: the transcript afterwards holds
only the preamble. -/
theorem empty_generation_discord_clears (cfg : ProviderConfig) (tok : Tokenizer)
    (hist : List String) (author content : String) (s : String)
    (h1 h2 : List String)
    (ha1 : append_message cfg.nether tok hist (author ++ ": " ++ content ++ "\n") true =
      (h1, none))
    (ha2 : append_message cfg.nether tok h1 (cfg.bot_name ++ ":") true = (h2, none))
    (hs : s.data.all py_is_space = true) :
    send_discord_message cfg tok hist author content (.success (some s)) =
      ([cfg.nether.prompt], none) := by
  simp only [send_discord_message, ha1, ha2, request_generation, validate_generation, hs,
    if_true, clear_all_memories]

/-- C8 (witness for the amended theorem): a concrete space-only generation
after which the transcript holds only the preamble. -/
theorem empty_generation_discord_clears_witness :
    send_discord_message ⟨⟨"p", "none", 10, 0⟩, "U", "B"⟩ char_tokenizer ["p"]
        "U" "hi" (.success (some " ")) = (["p"], none) :=
  empty_generation_discord_clears ⟨⟨"p", "none", 10, 0⟩, "U", "B"⟩ char_tokenizer ["p"]
    "U" "hi" " " ["p", "U: hi\n"] ["p", "U: hi\n", "B:"] (by decide) (by decide) (by decide)
